import Mathlib

/-!
Shallow embedding of the QOA ("Quite OK Audio") codec core, translated from
`src/qoa.h`, `src/write.c` and `src/read.c`, together with theorems settling
the specification claims.

Modelling conventions:
* C `int` / `long long` values are modelled as `Int`; C unsigned quantities
  (byte offsets, sizes, the `qoa_uint64_t` accumulators) as `Nat`.
* 64-bit wraparound of `qoa_uint64_t` is made explicit with `% 2 ^ 64`
  wherever the C value could reach 64 bits.
* Arithmetic right shift `>>` on signed C ints is floor division
  (`Int.fdiv v (2 ^ n)`); C signed division `/` (truncation toward zero)
  is `Int.tdiv`.
* A shift-and-mask field extraction `(v >> k) & (2^w - 1)` on unsigned
  values is written `v / 2 ^ k % 2 ^ w`, and an OR of values shifted into
  disjoint bit ranges is written as `+` of the shifted summands; both
  rewritings are exact for the value ranges the C types enforce.
* Byte buffers are `List Nat` (a C `unsigned char` array), sample buffers
  are `List Int` (a C `short` array).  Pointer advancement `bytes + p` is
  `List.drop p`; a write `buf[i] = v` is `List.set i v`, and an index read
  is `List.getD` (out-of-range C reads are undefined behaviour; `getD`
  returns the default there).
-/

/-- Arithmetic (sign-preserving) right shift on signed integers:
`v >> n` in C on a signed operand, i.e. floor division by `2 ^ n`. -/
def sar (v : Int) (n : Nat) : Int := Int.fdiv v (2 ^ n)

/-- The C sign expression `(v > 0) - (v < 0)` from `qoa_div`. -/
def csign (v : Int) : Int := (if 0 < v then 1 else 0) - (if v < 0 then 1 else 0)

/-- `qoa_clamp` from `qoa.h`: `(v < min) ? min : (v > max) ? max : v`. -/
def qoa_clamp (v lo hi : Int) : Int := if v < lo then lo else if v > hi then hi else v

/-- `qoa_quant_tab[17]` from `qoa.h`. -/
def qoa_quant_tab : List Nat := [7, 7, 7, 5, 5, 3, 3, 1, 0, 0, 2, 2, 4, 4, 6, 6, 6]

/-- `qoa_reciprocal_tab[16]` from `qoa.h`. -/
def qoa_reciprocal_tab : List Int :=
  [65536, 9363, 3121, 1457, 781, 475, 311, 216, 156, 117, 90, 71, 57, 47, 39, 32]

/-- `qoa_dequant_tab[16][8]` from `qoa.h`. -/
def qoa_dequant_tab : List (List Int) :=
  [[   1,    -1,    3,    -3,    5,    -5,     7,     -7],
   [   5,    -5,   18,   -18,   32,   -32,    49,    -49],
   [  16,   -16,   53,   -53,   95,   -95,   147,   -147],
   [  34,   -34,  113,  -113,  203,  -203,   315,   -315],
   [  63,   -63,  210,  -210,  378,  -378,   588,   -588],
   [ 104,  -104,  345,  -345,  621,  -621,   966,   -966],
   [ 158,  -158,  528,  -528,  950,  -950,  1477,  -1477],
   [ 228,  -228,  760,  -760, 1368, -1368,  2128,  -2128],
   [ 316,  -316, 1053, -1053, 1895, -1895,  2947,  -2947],
   [ 422,  -422, 1405, -1405, 2529, -2529,  3934,  -3934],
   [ 548,  -548, 1828, -1828, 3290, -3290,  5117,  -5117],
   [ 696,  -696, 2320, -2320, 4176, -4176,  6496,  -6496],
   [ 868,  -868, 2893, -2893, 5207, -5207,  8099,  -8099],
   [1064, -1064, 3548, -3548, 6386, -6386,  9933,  -9933],
   [1286, -1286, 4288, -4288, 7718, -7718, 12005, -12005],
   [1536, -1536, 5120, -5120, 9216, -9216, 14336, -14336]]

/-- `qoa_div` from `qoa.h`: rounding division away from zero via the
.16 fixed-point reciprocal table. -/
def qoa_div (v : Int) (scalefactor : Nat) : Int :=
  let reciprocal := qoa_reciprocal_tab.getD scalefactor 0
  let n := sar (v * reciprocal + 2 ^ 15) 16
  n + csign v - csign n

/-- `qoa_lms_t` from `qoa.h`: per-channel LMS predictor state,
four history entries and four weights (both length-4 lists). -/
structure QoaLms where
  history : List Int
  weights : List Int
deriving Repr, DecidableEq

/-- All-zero LMS state (used as the `List.getD` fallback; C never reads
an out-of-range channel slot on the paths modelled here). -/
def qoaLmsZero : QoaLms := ⟨[0, 0, 0, 0], [0, 0, 0, 0]⟩

/-- The per-channel LMS state `qoa_encode` installs before encoding:
weights `{0, 0, -(1<<13), (1<<14)}`, history `{0, 0, 0, 0}`
(`src/write.c` lines 129-142). -/
def qoa_initial_lms : QoaLms := ⟨[0, 0, 0, 0], [0, 0, -8192, 16384]⟩

/-- `qoa_lms_predict` from `qoa.h`: `(Σ weights[i] * history[i]) >> 13`. -/
def qoa_lms_predict (lms : QoaLms) : Int :=
  sar (List.zipWith (fun w h => w * h) lms.weights lms.history).sum 13

/-- `qoa_lms_update` from `qoa.h`: Sign-Sign LMS weight adjustment by
`delta = residual >> 4`, then shift the history and append the sample. -/
def qoa_lms_update (lms : QoaLms) (sample residual : Int) : QoaLms :=
  let delta := sar residual 4
  { weights := List.zipWith (fun w h => if h < 0 then w - delta else w + delta)
      lms.weights lms.history,
    history := lms.history.tail ++ [sample] }

/-- `qoa_read_u64` from `qoa.h`: big-endian read of 8 bytes at offset `p`
(the C OR of bytes shifted into disjoint ranges, written as a sum). -/
def qoa_read_u64 (bytes : List Nat) (p : Nat) : Nat :=
  bytes.getD p 0 * 2 ^ 56 + bytes.getD (p + 1) 0 * 2 ^ 48 +
  bytes.getD (p + 2) 0 * 2 ^ 40 + bytes.getD (p + 3) 0 * 2 ^ 32 +
  bytes.getD (p + 4) 0 * 2 ^ 24 + bytes.getD (p + 5) 0 * 2 ^ 16 +
  bytes.getD (p + 6) 0 * 2 ^ 8 + bytes.getD (p + 7) 0

/-- `qoa_write_u64` from `qoa.h`: the 8 big-endian bytes `(v >> 56) & 0xff`
down to `v & 0xff`, as the list the callers append at offset `p`. -/
def qoa_write_u64 (v : Nat) : List Nat :=
  [v / 2 ^ 56 % 256, v / 2 ^ 48 % 256, v / 2 ^ 40 % 256, v / 2 ^ 32 % 256,
   v / 2 ^ 24 % 256, v / 2 ^ 16 % 256, v / 2 ^ 8 % 256, v % 256]

/-- The C cast `(signed short) x`: interpret the low 16 bits of `x` in
two's complement (`src/read.c` lines 78-80). -/
def toInt16 (n : Nat) : Int :=
  if n % 65536 < 32768 then (n % 65536 : Nat) else (n % 65536 : Nat) - 65536

/-- The 4-iteration unpack loop of `qoa_decode_frame` (`src/read.c` lines
77-82): extract four successive 16-bit fields of a 64-bit word top-down,
sign-extending each (`(signed short)(word >> 48)` then `word <<= 16`). -/
def unpack16x4 (w : Nat) : List Int :=
  [toInt16 (w / 2 ^ 48), toInt16 (w / 2 ^ 32), toInt16 (w / 2 ^ 16), toInt16 w]

/-- The 4-iteration pack loop of `qoa_encode_frame` (`src/write.c` lines
32-35): `word = (word << 16) | (x & 0xffff)` over the four entries; the C
`& 0xffff` on a signed int is the nonnegative residue `Int.emod x 65536`. -/
def pack16x4 (xs : List Int) : Nat :=
  xs.foldl (fun acc x => acc * 65536 + (Int.emod x 65536).toNat) 0

/- -------------------------------------------------------------------------
Decoder (`src/read.c`) -/

/-- `qoa_decode_header` from `src/read.c`: checks the minimum file size,
the magic, a nonzero sample count, then peeks channels and samplerate from
the first frame header; returns `(channels, samplerate, samples)` on
success (the C function returns the consumed count 8 and fills the
descriptor). -/
def qoa_decode_header (bytes : List Nat) (size : Nat) : Option (Nat × Nat × Nat) :=
  if size < 16 then none else
  let file_header := qoa_read_u64 bytes 0
  if file_header / 2 ^ 32 ≠ 0x716f6166 then none else
  let samples := file_header % 2 ^ 32
  if samples = 0 then none else
  let frame_header := qoa_read_u64 bytes 8
  let channels := frame_header / 2 ^ 56 % 2 ^ 8
  let samplerate := frame_header / 2 ^ 32 % 2 ^ 24
  if channels = 0 ∨ samples = 0 ∨ samplerate = 0 then none else
  some (channels, samplerate, samples)

/-- The innermost decode loop of `qoa_decode_frame` (`src/read.c` lines
95-105): decode `count` residuals of one slice for one channel, writing
each reconstructed sample at `si` and stepping `si` by `channels`.
The C loop `for (si = slice_start; si < slice_end; si += channels)` runs
exactly `count = clamp(sample_index + 20, 0, samples) - sample_index`
times (its bounds differ by `count * channels` and it is only entered from
the channel loop, hence with `channels ≥ 1`). -/
def qoa_decode_slice (scalefactor channels : Nat) :
    Nat → Nat → QoaLms → List Int → Nat → QoaLms × List Int
  | 0, _, lmsc, buf, _ => (lmsc, buf)
  | count + 1, slice, lmsc, buf, si =>
    let predicted := qoa_lms_predict lmsc
    let quantized := slice / 2 ^ 57 % 8
    let dequantized := (qoa_dequant_tab.getD scalefactor []).getD quantized 0
    let reconstructed := qoa_clamp (predicted + dequantized) (-32768) 32767
    let buf' := buf.set si reconstructed
    let lmsc' := qoa_lms_update lmsc reconstructed dequantized
    qoa_decode_slice scalefactor channels count (slice * 8 % 2 ^ 64) lmsc' buf' (si + channels)

/-- The per-channel body of one slice block of `qoa_decode_frame`
(`src/read.c` lines 88-106): for each channel read one 64-bit slice at
`p`, extract the scalefactor (bits 60-63) and decode its residuals.
State is `(p, lms states, sample buffer)`; `base` is the offset of the
frame's `sample_data` pointer inside the whole decode buffer. -/
def qoa_decode_ch (bytes : List Nat) (channels samples sample_index base : Nat)
    (st : Nat × List QoaLms × List Int) (c : Nat) : Nat × List QoaLms × List Int :=
  let p := st.1
  let lms := st.2.1
  let buf := st.2.2
  let slice := qoa_read_u64 bytes p
  let scalefactor := slice / 2 ^ 60 % 16
  let slice_start := sample_index * channels + c
  let count := min (sample_index + 20) samples - sample_index
  let r := qoa_decode_slice scalefactor channels count slice (lms.getD c qoaLmsZero)
    buf (base + slice_start)
  (p + 8, lms.set c r.1, r.2)

/-- The channel loop of one slice block (`src/read.c` line 88): fold
`qoa_decode_ch` over the channels. -/
def qoa_decode_block (bytes : List Nat) (channels samples sample_index base : Nat)
    (st : Nat × List QoaLms × List Int) : Nat × List QoaLms × List Int :=
  (List.range channels).foldl (qoa_decode_ch bytes channels samples sample_index base) st

/-- The slice-block loop of `qoa_decode_frame` (`src/read.c` line 87):
`for (sample_index = 0; sample_index < samples; sample_index += 20)`,
which runs `blocks = ⌈samples / 20⌉` times. -/
def qoa_decode_blocks (bytes : List Nat) (channels samples base : Nat) :
    Nat → Nat → (Nat × List QoaLms × List Int) → Nat × List QoaLms × List Int
  | 0, _, st => st
  | blocks + 1, sample_index, st =>
    qoa_decode_blocks bytes channels samples base blocks (sample_index + 20)
      (qoa_decode_block bytes channels samples sample_index base st)

/-- Result of `qoa_decode_frame`: bytes consumed (the C return value),
`*frame_len`, the updated per-channel LMS states of the descriptor, and
the updated sample buffer. -/
structure QoaFrameResult where
  consumed : Nat
  frame_len : Nat
  lms : List QoaLms
  buf : List Int
deriving Repr, DecidableEq

/-- `qoa_decode_frame` from `src/read.c`: size check, frame-header parse
and validation, LMS state load, then slice decoding.  `channels` and
`samplerate` are the descriptor fields the C code reads from `qoa`;
`buf`/`base` stand for the `sample_data` pointer (buffer and offset).
`data_size`, `num_slices` and `max_total_samples` are C `int` values
(`Int.tdiv` is C's truncating `/`), since `data_size` may be negative. -/
def qoa_decode_frame (bytes : List Nat) (size : Nat) (channels samplerate : Nat)
    (lms : List QoaLms) (buf : List Int) (base : Nat) : QoaFrameResult :=
  if size < 8 + 16 * channels then ⟨0, 0, lms, buf⟩ else
  let frame_header := qoa_read_u64 bytes 0
  let fchannels : Nat := frame_header / 2 ^ 56 % 2 ^ 8
  let fsamplerate : Nat := frame_header / 2 ^ 32 % 2 ^ 24
  let fsamples : Nat := frame_header / 2 ^ 16 % 2 ^ 16
  let frame_size : Nat := frame_header % 2 ^ 16
  let data_size : Int := (frame_size : Int) - 8 - 16 * (fchannels : Int)
  let num_slices : Int := Int.tdiv data_size 8
  let max_total_samples : Int := num_slices * 20
  if fchannels ≠ channels ∨ fsamplerate ≠ samplerate ∨ frame_size > size ∨
      ((fsamples * fchannels : Nat) : Int) > max_total_samples then ⟨0, 0, lms, buf⟩ else
  let lms' := (List.range fchannels).map (fun c =>
    { history := unpack16x4 (qoa_read_u64 bytes (8 + 16 * c)),
      weights := unpack16x4 (qoa_read_u64 bytes (8 + 16 * c + 8)) : QoaLms })
  let blocks := (fsamples + 19) / 20
  let r := qoa_decode_blocks bytes fchannels fsamples base blocks 0 (8 + 16 * fchannels, lms', buf)
  ⟨r.1, fsamples, r.2.1, r.2.2⟩

/-- Result of `qoa_decode`: the sample buffer and the descriptor fields
as the caller observes them afterwards. -/
structure QoaDecodeResult where
  buf : List Int
  channels : Nat
  samplerate : Nat
  samples : Nat
  lms : List QoaLms
deriving Repr, DecidableEq

/-- The frame loop of `qoa_decode` (`src/read.c` lines 128-133):
`do { decode_frame; p += frame_size; sample_index += frame_len; }
while (frame_size && sample_index < qoa->samples)`.
`bytes + p` is `bytes.drop p` and the remaining size is `size - p`
(truncated subtraction; once `p ≥ size` the next frame fails its size
check and the loop stops).  The C loop terminates because every nonzero
`frame_size` is at least 24, so `fuel = size + 1` (supplied by
`qoa_decode`) is never exhausted on any run reaching the zero-fuel case
with `frame_size ≠ 0` still possible. -/
def qoa_decode_loop (bytes : List Nat) (size channels samplerate samples : Nat) :
    Nat → Nat → Nat → List QoaLms → List Int → Nat × List QoaLms × List Int
  | 0, _, sample_index, lms, buf => (sample_index, lms, buf)
  | fuel + 1, p, sample_index, lms, buf =>
    let r := qoa_decode_frame (bytes.drop p) (size - p) channels samplerate lms buf
      (sample_index * channels)
    let p' := p + r.consumed
    let si' := sample_index + r.frame_len
    if r.consumed ≠ 0 ∧ si' < samples then
      qoa_decode_loop bytes size channels samplerate samples fuel p' si' r.lms r.buf
    else (si', r.lms, r.buf)

/-- `qoa_decode` from `src/read.c`: parse the header (`none` = the C
`NULL` return), allocate `samples * channels` samples, run the frame
loop from `p = 8`, and overwrite the descriptor's `samples` with the
actually-decoded count. -/
def qoa_decode (bytes : List Nat) (size : Nat) : Option QoaDecodeResult :=
  match qoa_decode_header bytes size with
  | none => none
  | some (channels, samplerate, samples) =>
    let buf := List.replicate (samples * channels) 0
    let lms := List.replicate channels qoaLmsZero
    let r := qoa_decode_loop bytes size channels samplerate samples (size + 1) 8 0 lms buf
    some ⟨r.2.2, channels, samplerate, r.1, r.2.1⟩

/- -------------------------------------------------------------------------
Encoder (`src/write.c`) -/

/-- `qoa_encode_header` from `src/write.c`: the single 64-bit word
`(QOA_MAGIC << 32) | qoa->samples` (`qoa->samples` is a 32-bit unsigned
field, so the OR is the sum of disjoint summands). -/
def qoa_encode_header (samples : Nat) : List Nat :=
  qoa_write_u64 (0x716f6166 * 2 ^ 32 + samples)

/-- One sample's quantized residual inside the encoder's trial loop
(`src/write.c` lines 66-72): `sample = sample_data[si]`,
`predicted = predict(lms)`, `residual = sample - predicted`,
`scaled = qoa_div(residual, scalefactor)`, `clamped = clamp(scaled, -8, 8)`,
`quantized = qoa_quant_tab[clamped + 8]`. -/
def qoa_enc_quantized (sd : List Int) (scalefactor si : Nat) (lmsc : QoaLms) : Nat :=
  qoa_quant_tab.getD
    (qoa_clamp (qoa_div (sd.getD si 0 - qoa_lms_predict lmsc) scalefactor) (-8) 8 + 8).toNat 0

/-- `dequantized = qoa_dequant_tab[scalefactor][quantized]`
(`src/write.c` line 73). -/
def qoa_enc_dequantized (sd : List Int) (scalefactor si : Nat) (lmsc : QoaLms) : Int :=
  (qoa_dequant_tab.getD scalefactor []).getD (qoa_enc_quantized sd scalefactor si lmsc) 0

/-- `reconstructed = clamp(predicted + dequantized, -32768, 32767)`
(`src/write.c` line 74). -/
def qoa_enc_reconstructed (sd : List Int) (scalefactor si : Nat) (lmsc : QoaLms) : Int :=
  qoa_clamp (qoa_lms_predict lmsc + qoa_enc_dequantized sd scalefactor si lmsc)
    (-32768) 32767

/-- The squared prediction error of one sample,
`error = sample - reconstructed; error * error` (`src/write.c` lines
76-77), as the nonnegative quantity added to the `u64` accumulator. -/
def qoa_enc_err2 (sd : List Int) (scalefactor si : Nat) (lmsc : QoaLms) : Nat :=
  ((sd.getD si 0 - qoa_enc_reconstructed sd scalefactor si lmsc) *
    (sd.getD si 0 - qoa_enc_reconstructed sd scalefactor si lmsc)).toNat

/-- The innermost scalefactor-trial loop of `qoa_encode_frame`
(`src/write.c` lines 65-84): encode `count` samples of one slice with a
fixed `scalefactor`, threading `(lms, slice, current_error)` and reading
the input at `si`, `si + channels`, ...  The accumulators `slice` and
`current_error` are `qoa_uint64_t`, hence the explicit `% 2 ^ 64`.
If `current_error > best_error` the C code breaks out, returning the
state reached so far without the pending LMS update and slice append. -/
def qoa_encode_slice_try (sd : List Int) (channels scalefactor best_error : Nat) :
    Nat → Nat → QoaLms → Nat → Nat → QoaLms × Nat × Nat
  | 0, _, lmsc, slice, cur => (lmsc, slice, cur)
  | count + 1, si, lmsc, slice, cur =>
    let cur' := (cur + qoa_enc_err2 sd scalefactor si lmsc) % 2 ^ 64
    if cur' > best_error then (lmsc, slice, cur')
    else qoa_encode_slice_try sd channels scalefactor best_error count (si + channels)
      (qoa_lms_update lmsc (qoa_enc_reconstructed sd scalefactor si lmsc)
        (qoa_enc_dequantized sd scalefactor si lmsc))
      ((slice * 8 + qoa_enc_quantized sd scalefactor si lmsc) % 2 ^ 64) cur'

/-- The brute-force scalefactor search of `qoa_encode_frame`
(`src/write.c` lines 52-91): try all 16 scalefactors on the slice
starting at `slice_start` (length `slice_len`, channel stride), keeping
`(best_error, best_slice, best_lms)`.  `best_error` starts at
`(qoa_uint64_t)-1 = 2 ^ 64 - 1`; the C `best_slice`/`best_lms` start
uninitialized and are modelled as `0`/`lms0` (they are overwritten on
the first acceptance). -/
def qoa_encode_sf (sd : List Int) (channels slice_start slice_len : Nat) (lms0 : QoaLms)
    (best : Nat × Nat × QoaLms) (scalefactor : Nat) : Nat × Nat × QoaLms :=
  let r := qoa_encode_slice_try sd channels scalefactor best.1 slice_len slice_start
    lms0 scalefactor 0
  if r.2.2 < best.1 then (r.2.2, r.2.1, r.1) else best

/-- The scalefactor loop (`src/write.c` line 56): fold `qoa_encode_sf`
over the 16 scalefactors, starting from `best_error = 2 ^ 64 - 1`. -/
def qoa_encode_search (sd : List Int) (channels slice_start slice_len : Nat)
    (lms0 : QoaLms) : Nat × Nat × QoaLms :=
  (List.range 16).foldl (qoa_encode_sf sd channels slice_start slice_len lms0)
    (2 ^ 64 - 1, 0, lms0)

/-- The per-channel body of one slice block of `qoa_encode_frame`
(`src/write.c` lines 44-104): search the best scalefactor, commit
`qoa->lms[c] = best_lms`, left-shift a short final slice so its residual
bits sit at the top, and append the 8 slice bytes.  `slice_len` is the C
`qoa_clamp(QOA_SLICE_LEN, 0, frame_len - sample_index)`, which equals
`min 20 (frame_len - sample_index)` at every reached call
(`sample_index < frame_len`). -/
def qoa_encode_ch (sd : List Int) (channels frame_len sample_index : Nat)
    (st : List QoaLms × List Nat) (c : Nat) : List QoaLms × List Nat :=
  let lms := st.1
  let bytes := st.2
  let slice_len := min 20 (frame_len - sample_index)
  let slice_start := sample_index * channels + c
  let r := qoa_encode_search sd channels slice_start slice_len (lms.getD c qoaLmsZero)
  let shifted := r.2.1 * 2 ^ ((20 - slice_len) * 3) % 2 ^ 64
  (lms.set c r.2.2, bytes ++ qoa_write_u64 shifted)

/-- The channel loop of one encoder slice block (`src/write.c` line 44):
fold `qoa_encode_ch` over the channels. -/
def qoa_encode_block (sd : List Int) (channels frame_len sample_index : Nat)
    (st : List QoaLms × List Nat) : List QoaLms × List Nat :=
  (List.range channels).foldl (qoa_encode_ch sd channels frame_len sample_index) st

/-- The slice-block loop of `qoa_encode_frame` (`src/write.c` line 42):
`for (sample_index = 0; sample_index < frame_len; sample_index += 20)`,
which runs `⌈frame_len / 20⌉` times. -/
def qoa_encode_blocks (sd : List Int) (channels frame_len : Nat) :
    Nat → Nat → (List QoaLms × List Nat) → List QoaLms × List Nat
  | 0, _, st => st
  | blocks + 1, sample_index, st =>
    qoa_encode_blocks sd channels frame_len blocks (sample_index + 20)
      (qoa_encode_block sd channels frame_len sample_index st)

/-- The LMS-state write loop of `qoa_encode_frame` (`src/write.c` lines
29-38): per channel, pack the four 16-bit histories then the four 16-bit
weights into one 64-bit word each and append both. -/
def qoa_encode_lms_word (lms : List QoaLms) (bs : List Nat) (c : Nat) : List Nat :=
  bs ++ qoa_write_u64 (pack16x4 (lms.getD c qoaLmsZero).history)
     ++ qoa_write_u64 (pack16x4 (lms.getD c qoaLmsZero).weights)

/-- `qoa_encode_frame` from `src/write.c`: frame header (channels,
samplerate, frame_len, frame_size ORed into disjoint bit fields), the
packed per-channel LMS state, then the channel-interleaved slices.
Returns the updated LMS states and the frame's bytes (the C function
returns its byte count `p` = length of that list). -/
def qoa_encode_frame (sd : List Int) (channels samplerate : Nat) (lms : List QoaLms)
    (frame_len : Nat) : List QoaLms × List Nat :=
  let slices := (frame_len + 19) / 20
  let frame_size := 8 + 16 * channels + 8 * slices * channels
  let header := qoa_write_u64
    (channels * 2 ^ 56 + samplerate * 2 ^ 32 + frame_len * 2 ^ 16 + frame_size)
  let lms_bytes := (List.range channels).foldl (qoa_encode_lms_word lms) []
  let r := qoa_encode_blocks sd channels frame_len slices 0 (lms, [])
  (r.1, header ++ lms_bytes ++ r.2)

/-- The frame loop of `qoa_encode` (`src/write.c` lines 151-157):
`for (sample_index = 0; sample_index < qoa->samples; sample_index += frame_len)`
with `frame_len = qoa_clamp(QOA_FRAME_LEN, 0, samples - sample_index)`
(= `min 5120 (samples - sample_index)` while `sample_index < samples`);
each frame encodes from `sample_data + sample_index * channels`. -/
def qoa_encode_frames (sd : List Int) (channels samplerate samples : Nat)
    (lms : List QoaLms) (sample_index : Nat) : List QoaLms × List Nat :=
  if _h : sample_index < samples then
    let frame_len := min 5120 (samples - sample_index)
    let r := qoa_encode_frame (sd.drop (sample_index * channels)) channels samplerate
      lms frame_len
    let rest := qoa_encode_frames sd channels samplerate samples r.1 (sample_index + frame_len)
    (rest.1, r.2 ++ rest.2)
  else (lms, [])
termination_by samples - sample_index
decreasing_by omega

/-- `qoa_encode` from `src/write.c`: validate the descriptor (`none` =
the C `NULL` return), install `qoa_initial_lms` per channel, write the
file header, then every frame; the C `*out_len` is the length of the
returned byte list. -/
def qoa_encode (sd : List Int) (channels samplerate samples : Nat) : Option (List Nat) :=
  if samples = 0 ∨ samplerate = 0 ∨ samplerate > 0xffffff ∨ channels = 0 ∨ channels > 8
  then none
  else
    let lms := List.replicate channels qoa_initial_lms
    let r := qoa_encode_frames sd channels samplerate samples lms 0
    some (qoa_encode_header samples ++ r.2)

/- -------------------------------------------------------------------------
Helper lemmas -/

lemma qoa_reciprocal_tab_bounds (s : Nat) (hs : s < 16) :
    32 ≤ qoa_reciprocal_tab.getD s 0 ∧ qoa_reciprocal_tab.getD s 0 ≤ 65536 := by
  interval_cases s <;> decide

lemma qoa_div_pos (v : Int) (s : Nat) (hs : s < 16) (hv : 0 < v) : 0 < qoa_div v s := by
  obtain ⟨h1, h2⟩ := qoa_reciprocal_tab_bounds s hs
  have hm : 0 ≤ v * qoa_reciprocal_tab.getD s 0 + 2 ^ 15 := by nlinarith
  have hn : 0 ≤ sar (v * qoa_reciprocal_tab.getD s 0 + 2 ^ 15) 16 :=
    Int.fdiv_nonneg hm (by norm_num)
  simp only [qoa_div, csign]
  split_ifs <;> omega

lemma qoa_div_neg (v : Int) (s : Nat) (hs : s < 16) (hv : v < 0) : qoa_div v s < 0 := by
  obtain ⟨h1, h2⟩ := qoa_reciprocal_tab_bounds s hs
  have hm : v * qoa_reciprocal_tab.getD s 0 + 2 ^ 15 < 2 ^ 16 := by nlinarith
  have hn : sar (v * qoa_reciprocal_tab.getD s 0 + 2 ^ 15) 16 < 1 := by
    rw [sar, Int.fdiv_eq_ediv _ (by norm_num)]
    by_contra h
    push_neg at h
    have := (Int.le_ediv_iff_mul_le (by norm_num : (0 : Int) < 2 ^ 16)).mp h
    omega
  simp only [qoa_div, csign]
  split_ifs <;> omega

/- -------------------------------------------------------------------------
Claim theorems (first batch) -/

/-- C8: at the start of `qoa_encode` every channel's LMS state is
initialized to weights `{0, 0, -8192, 16384}` and history `{0, 0, 0, 0}`
(the state installed per channel is `qoa_initial_lms`, and `qoa_encode`
starts from `List.replicate channels qoa_initial_lms`), and
`qoa_lms_predict` on this initial state returns `0`. -/
theorem C8_initial_lms_predict_zero :
    qoa_initial_lms.weights = [0, 0, -8192, 16384] ∧
    qoa_initial_lms.history = [0, 0, 0, 0] ∧
    qoa_lms_predict qoa_initial_lms = 0 := by
  refine ⟨rfl, rfl, ?_⟩
  decide

/-- C5: for every scalefactor index `s < 16`, `qoa_div 0 s = 0`; and for
every nonzero residual `v` (the embedding uses exact integers, as the C
`int` arithmetic is exact on every residual the encoder produces),
`qoa_div v s` is nonzero and has the sign of `v`. -/
theorem C5_qoa_div_zero_and_sign :
    (∀ s : Nat, s < 16 → qoa_div 0 s = 0) ∧
    (∀ (v : Int) (s : Nat), s < 16 → v ≠ 0 →
      qoa_div v s ≠ 0 ∧ (0 < v → 0 < qoa_div v s) ∧ (v < 0 → qoa_div v s < 0)) := by
  constructor
  · intro s hs
    interval_cases s <;> decide
  · intro v s hs hv
    rcases lt_or_gt_of_ne hv with hneg | hpos
    · have := qoa_div_neg v s hs hneg
      exact ⟨by omega, by omega, fun _ => this⟩
    · have := qoa_div_pos v s hs hpos
      exact ⟨by omega, fun _ => this, by omega⟩

/-- Witness for C5 at `v = 5`, `s = 3` and `v = -5`, `s = 0`. -/
theorem C5_witness :
    qoa_div 0 3 = 0 ∧ qoa_div 5 3 ≠ 0 ∧ 0 < qoa_div 5 3 ∧ qoa_div (-5) 0 < 0 := by
  refine ⟨C5_qoa_div_zero_and_sign.1 3 (by decide), ?_, ?_, ?_⟩
  · exact (C5_qoa_div_zero_and_sign.2 5 3 (by decide) (by decide)).1
  · exact (C5_qoa_div_zero_and_sign.2 5 3 (by decide) (by decide)).2.1 (by decide)
  · exact (C5_qoa_div_zero_and_sign.2 (-5) 0 (by decide) (by decide)).2.2 (by decide)

lemma qoa_decode_fold_fst (bytes : List Nat) (channels samples sample_index base : Nat) :
    ∀ (l : List Nat) (st : Nat × List QoaLms × List Int),
      (l.foldl (qoa_decode_ch bytes channels samples sample_index base) st).1 =
        st.1 + 8 * l.length
  | [], st => by simp
  | c :: cs, st => by
    rw [List.foldl_cons,
      qoa_decode_fold_fst bytes channels samples sample_index base cs _]
    simp only [qoa_decode_ch, List.length_cons]
    omega

lemma qoa_decode_block_fst (bytes : List Nat) (channels samples sample_index base : Nat)
    (st : Nat × List QoaLms × List Int) :
    (qoa_decode_block bytes channels samples sample_index base st).1 = st.1 + 8 * channels := by
  unfold qoa_decode_block
  rw [qoa_decode_fold_fst, List.length_range]

lemma qoa_decode_blocks_fst (bytes : List Nat) (channels samples base : Nat) :
    ∀ (blocks sample_index : Nat) (st : Nat × List QoaLms × List Int),
      (qoa_decode_blocks bytes channels samples base blocks sample_index st).1 =
        st.1 + 8 * channels * blocks
  | 0, _, st => by simp [qoa_decode_blocks]
  | b + 1, sample_index, st => by
    rw [qoa_decode_blocks, qoa_decode_blocks_fst bytes channels samples base b _ _,
      qoa_decode_block_fst]
    ring

/-- A `qoa_decode_frame` call that consumed `0` bytes took one of the two
rejection exits, which leave the descriptor state and the buffer
untouched and report `frame_len = 0`. -/
lemma qoa_decode_frame_of_consumed_zero (bytes : List Nat) (size channels samplerate : Nat)
    (lms : List QoaLms) (buf : List Int) (base : Nat)
    (hr : (qoa_decode_frame bytes size channels samplerate lms buf base).consumed = 0) :
    qoa_decode_frame bytes size channels samplerate lms buf base = ⟨0, 0, lms, buf⟩ := by
  simp only [qoa_decode_frame] at hr ⊢
  split_ifs at hr ⊢ with h1 h2
  · rfl
  · rfl
  · exfalso
    rw [qoa_decode_blocks_fst] at hr
    dsimp only at hr
    omega

/-- C9: whenever a frame passes `qoa_decode_frame`'s validation (signalled
by a nonzero consumed count), the consumed byte count is exactly
`8 + 16*channels + 8*⌈samples/20⌉*channels`, where `samples` is the frame
header's sample-count field (bits 16..31); the header's `frame_size`
field plays no part in it, so excess trailing slices are not consumed. -/
theorem C9_decode_frame_consumed (bytes : List Nat) (size channels samplerate : Nat)
    (lms : List QoaLms) (buf : List Int) (base : Nat)
    (hr : (qoa_decode_frame bytes size channels samplerate lms buf base).consumed ≠ 0) :
    (qoa_decode_frame bytes size channels samplerate lms buf base).consumed =
      8 + 16 * channels + 8 * ((qoa_read_u64 bytes 0 / 2 ^ 16 % 2 ^ 16 + 19) / 20) * channels := by
  simp only [qoa_decode_frame] at hr ⊢
  split_ifs at hr ⊢ with h1 h2
  · exact absurd rfl hr
  · exact absurd rfl hr
  · rw [qoa_decode_blocks_fst]
    dsimp only
    push_neg at h2
    rw [h2.1]
    ring

/-- A frame whose header advertises `frame_size = 40` (two slices) but
whose sample count (1) needs only one slice: used to witness C9. -/
def c9_frame : List Nat :=
  qoa_write_u64 (1 * 2 ^ 56 + 1 * 2 ^ 32 + 1 * 2 ^ 16 + 40) ++ List.replicate 32 0

/-- Witness for C9: the frame `c9_frame` passes validation, consumes
exactly `8 + 16 + 8 = 32` bytes, strictly less than its header's
`frame_size` field of 40. -/
theorem C9_witness :
    (qoa_decode_frame c9_frame 40 1 1 [qoaLmsZero] (List.replicate 1 0) 0).consumed = 32 ∧
      32 < qoa_read_u64 c9_frame 0 % 2 ^ 16 := by
  constructor
  · rw [C9_decode_frame_consumed c9_frame 40 1 1 [qoaLmsZero] (List.replicate 1 0) 0
      (by decide)]
    decide
  · decide

/-- C7: `qoa_decode_frame` fails — returning `0` consumed bytes with
`frame_len = 0` and descriptor state and buffer untouched — whenever
`size < 8 + 16*channels`, or the parsed frame-header fields reject:
channel count `fch` differs from the descriptor's, samplerate `fsr`
differs, `frame_size fsz > size`, or `samples * channels` exceeds
`num_slices * 20` with `num_slices = (frame_size - 8 - 16*channels) / 8`
(C truncating `int` division). -/
theorem C7_decode_frame_validation (bytes : List Nat) (size channels samplerate : Nat)
    (lms : List QoaLms) (buf : List Int) (base : Nat) (fch fsr fsam fsz : Nat)
    (hfch : fch = qoa_read_u64 bytes 0 / 2 ^ 56 % 2 ^ 8)
    (hfsr : fsr = qoa_read_u64 bytes 0 / 2 ^ 32 % 2 ^ 24)
    (hfsam : fsam = qoa_read_u64 bytes 0 / 2 ^ 16 % 2 ^ 16)
    (hfsz : fsz = qoa_read_u64 bytes 0 % 2 ^ 16)
    (h : size < 8 + 16 * channels ∨ fch ≠ channels ∨ fsr ≠ samplerate ∨ fsz > size ∨
      ((fsam * fch : Nat) : Int) > Int.tdiv ((fsz : Int) - 8 - 16 * (fch : Int)) 8 * 20) :
    qoa_decode_frame bytes size channels samplerate lms buf base = ⟨0, 0, lms, buf⟩ := by
  subst hfch hfsr hfsam hfsz
  simp only [qoa_decode_frame]
  split_ifs with h1 h2
  · rfl
  · rfl
  · exfalso
    push_neg at h2
    rcases h with h | h | h | h | h
    · exact h1 h
    · exact h (h2.1)
    · exact h (h2.2.1)
    · omega
    · exact absurd h (not_lt.mpr h2.2.2.2)

/-- Witness for C7: an empty 0-byte input is rejected with nothing
consumed, `frame_len = 0`, and untouched state. -/
theorem C7_witness :
    qoa_decode_frame [] 0 5 1 [qoaLmsZero] [0] 0 = ⟨0, 0, [qoaLmsZero], [0]⟩ := by
  exact C7_decode_frame_validation [] 0 5 1 [qoaLmsZero] [0] 0 _ _ _ _ rfl rfl rfl rfl
    (Or.inl (by decide))

/-- A 16-byte input: a valid file header (magic, 1 sample) followed by a
frame header (channels 1, samplerate 44100) whose frame is malformed —
only 8 bytes remain, fewer than the `8 + 16*channels` a frame needs. -/
def c3_bytes : List Nat :=
  [0x71, 0x6f, 0x61, 0x66, 0, 0, 0, 1, 0x01, 0x00, 0xAC, 0x44, 0x00, 0x01, 0x00, 0x08]

/-- Counterexample to C2 as stated: `c3_bytes` contains a malformed frame
(the decoder aborts on it, consuming 0 bytes), yet `qoa_decode` does not
return null — it returns the allocated buffer with the decoded count 0. -/
theorem C2_counterexample :
    (qoa_decode_frame (c3_bytes.drop 8) 8 1 44100 [qoaLmsZero] [0] 0).consumed = 0 ∧
      qoa_decode c3_bytes 16 ≠ none := by
  constructor
  · decide
  · decide

/-- C2 amended: `qoa_decode` returns null exactly when the file header is
malformed (`qoa_decode_header` fails); a malformed frame after a valid
header terminates the frame loop but still returns a non-null buffer. -/
theorem C2_decode_null_iff_header (bytes : List Nat) (size : Nat) :
    (qoa_decode bytes size = none ↔ qoa_decode_header bytes size = none) := by
  unfold qoa_decode
  cases qoa_decode_header bytes size <;> simp

/-- C3: whenever `qoa_decode`'s frame loop — at any reachable state:
any byte offset `p`, any number `si` of samples decoded by earlier
successful frames, any evolved LMS states and buffer contents —
encounters a frame on which `qoa_decode_frame` returns 0 (malformed or
EOF), it stops iterating at once and returns exactly what it has: the
decoded-so-far count `si` (which becomes `desc.samples` and may be less
than the file header's sample count) together with the buffer as filled
so far.  Moreover whenever the file header parses, `qoa_decode` returns
that loop outcome as a non-null result whose `samples` field is the
loop's actually-decoded count.  In particular the 16-byte input
`c3_bytes` (valid file header + malformed frame header) decodes
non-null with channels 1, samplerate 44100 and samples 0. -/
theorem C3_decode_stops_early :
    (∀ (bytes : List Nat) (size channels samplerate samples fuel p si : Nat)
        (dlms : List QoaLms) (buf : List Int),
      (qoa_decode_frame (bytes.drop p) (size - p) channels samplerate dlms buf
          (si * channels)).consumed = 0 →
      qoa_decode_loop bytes size channels samplerate samples (fuel + 1) p si dlms buf =
        (si, dlms, buf)) ∧
    (∀ (bytes : List Nat) (size channels samplerate samples : Nat),
      qoa_decode_header bytes size = some (channels, samplerate, samples) →
      ∃ r : QoaDecodeResult, qoa_decode bytes size = some r ∧
        r.samples = (qoa_decode_loop bytes size channels samplerate samples (size + 1) 8 0
          (List.replicate channels qoaLmsZero)
          (List.replicate (samples * channels) 0)).1 ∧
        r.buf = (qoa_decode_loop bytes size channels samplerate samples (size + 1) 8 0
          (List.replicate channels qoaLmsZero)
          (List.replicate (samples * channels) 0)).2.2) ∧
    qoa_decode c3_bytes 16 = some ⟨[0], 1, 44100, 0, [qoaLmsZero]⟩ := by
  refine ⟨?_, ?_, by decide⟩
  · intro bytes size channels samplerate samples fuel p si dlms buf hf
    have hr := qoa_decode_frame_of_consumed_zero _ _ _ _ _ _ _ hf
    simp only [qoa_decode_loop]
    rw [hr]
    simp
  · intro bytes size channels samplerate samples hh
    refine ⟨⟨(qoa_decode_loop bytes size channels samplerate samples (size + 1) 8 0
        (List.replicate channels qoaLmsZero) (List.replicate (samples * channels) 0)).2.2,
      channels, samplerate,
      (qoa_decode_loop bytes size channels samplerate samples (size + 1) 8 0
        (List.replicate channels qoaLmsZero) (List.replicate (samples * channels) 0)).1,
      (qoa_decode_loop bytes size channels samplerate samples (size + 1) 8 0
        (List.replicate channels qoaLmsZero)
        (List.replicate (samples * channels) 0)).2.1⟩, ?_, rfl, rfl⟩
    unfold qoa_decode
    rw [hh]

/-- Witness for C3: the loop-stop statement applied at a state with
NONZERO prior progress (7 samples already decoded, offset 16, fuel
left), and the concrete 16-byte `c3_bytes` decode. -/
theorem C3_witness :
    qoa_decode_loop c3_bytes 16 1 44100 9 (3 + 1) 16 7 [qoaLmsZero]
        (List.replicate 9 0) = (7, [qoaLmsZero], List.replicate 9 0) ∧
      qoa_decode c3_bytes 16 = some ⟨[0], 1, 44100, 0, [qoaLmsZero]⟩ :=
  ⟨C3_decode_stops_early.1 c3_bytes 16 1 44100 9 3 16 7 [qoaLmsZero]
      (List.replicate 9 0) (by decide),
    C3_decode_stops_early.2.2⟩

/- -------------------------------------------------------------------------
Encoder output-length lemmas -/

lemma qoa_write_u64_length (v : Nat) : (qoa_write_u64 v).length = 8 := rfl

lemma qoa_encode_lms_word_foldl_length (lms : List QoaLms) :
    ∀ (l : List Nat) (bs : List Nat),
      (l.foldl (qoa_encode_lms_word lms) bs).length = bs.length + 16 * l.length
  | [], bs => by simp
  | c :: cs, bs => by
    rw [List.foldl_cons, qoa_encode_lms_word_foldl_length lms cs _]
    simp only [qoa_encode_lms_word, List.length_append, qoa_write_u64_length,
      List.length_cons]
    omega

lemma qoa_encode_ch_snd_length (sd : List Int) (channels frame_len sample_index : Nat)
    (st : List QoaLms × List Nat) (c : Nat) :
    (qoa_encode_ch sd channels frame_len sample_index st c).2.length = st.2.length + 8 := by
  simp [qoa_encode_ch, List.length_append, qoa_write_u64_length]

lemma qoa_encode_fold_snd_length (sd : List Int) (channels frame_len sample_index : Nat) :
    ∀ (l : List Nat) (st : List QoaLms × List Nat),
      (l.foldl (qoa_encode_ch sd channels frame_len sample_index) st).2.length =
        st.2.length + 8 * l.length
  | [], st => by simp
  | c :: cs, st => by
    rw [List.foldl_cons, qoa_encode_fold_snd_length sd channels frame_len sample_index cs _,
      qoa_encode_ch_snd_length]
    simp only [List.length_cons]
    omega

lemma qoa_encode_block_snd_length (sd : List Int) (channels frame_len sample_index : Nat)
    (st : List QoaLms × List Nat) :
    (qoa_encode_block sd channels frame_len sample_index st).2.length =
      st.2.length + 8 * channels := by
  unfold qoa_encode_block
  rw [qoa_encode_fold_snd_length, List.length_range]

lemma qoa_encode_blocks_snd_length (sd : List Int) (channels frame_len : Nat) :
    ∀ (blocks sample_index : Nat) (st : List QoaLms × List Nat),
      (qoa_encode_blocks sd channels frame_len blocks sample_index st).2.length =
        st.2.length + 8 * channels * blocks
  | 0, _, st => by simp [qoa_encode_blocks]
  | b + 1, sample_index, st => by
    rw [qoa_encode_blocks, qoa_encode_blocks_snd_length sd channels frame_len b _ _,
      qoa_encode_block_snd_length]
    ring

lemma qoa_encode_frame_snd_length (sd : List Int) (channels samplerate : Nat)
    (lms : List QoaLms) (frame_len : Nat) :
    (qoa_encode_frame sd channels samplerate lms frame_len).2.length =
      8 + 16 * channels + 8 * channels * ((frame_len + 19) / 20) := by
  simp only [qoa_encode_frame]
  rw [List.length_append, List.length_append, qoa_write_u64_length,
    qoa_encode_lms_word_foldl_length, qoa_encode_blocks_snd_length]
  simp [List.length_range]

lemma qoa_encode_frames_snd_length (sd : List Int) (channels samplerate samples : Nat)
    (lms : List QoaLms) (sample_index : Nat) :
    (qoa_encode_frames sd channels samplerate samples lms sample_index).2.length =
      (samples - sample_index + 5119) / 5120 * (8 + 16 * channels) +
        8 * channels * ((samples - sample_index + 19) / 20) := by
  rw [qoa_encode_frames]
  split_ifs with h
  · rw [List.length_append, qoa_encode_frame_snd_length,
      qoa_encode_frames_snd_length sd channels samplerate samples _ _]
    have hA : (samples - sample_index + 5119) / 5120 =
        (samples - (sample_index + min 5120 (samples - sample_index)) + 5119) / 5120 + 1 := by
      omega
    have hB : (samples - sample_index + 19) / 20 =
        (min 5120 (samples - sample_index) + 19) / 20 +
          (samples - (sample_index + min 5120 (samples - sample_index)) + 19) / 20 := by
      omega
    rw [hA, hB]
    ring
  · have h0 : samples - sample_index = 0 := by omega
    simp [h0]
termination_by samples - sample_index
decreasing_by omega

/-- C4: for every valid descriptor (`channels ∈ [1,8]`,
`samplerate ∈ [1, 0xffffff]`, `samples > 0`), `qoa_encode` succeeds and
its output length is exactly
`8 + num_frames*8 + num_frames*16*channels + num_slices*8*channels`
with `num_frames = ⌈samples/5120⌉` and `num_slices = ⌈samples/20⌉`. -/
theorem C4_encode_length (sd : List Int) (channels samplerate samples : Nat)
    (h1 : 1 ≤ channels) (h2 : channels ≤ 8) (h3 : 1 ≤ samplerate)
    (h4 : samplerate ≤ 0xffffff) (h5 : 1 ≤ samples) :
    ∃ bytes, qoa_encode sd channels samplerate samples = some bytes ∧
      bytes.length = 8 + (samples + 5119) / 5120 * 8 +
        (samples + 5119) / 5120 * 16 * channels + (samples + 19) / 20 * 8 * channels := by
  unfold qoa_encode
  rw [if_neg (by omega)]
  refine ⟨_, rfl, ?_⟩
  rw [List.length_append, qoa_encode_frames_snd_length]
  have : (qoa_encode_header samples).length = 8 := rfl
  rw [this, Nat.sub_zero]
  ring

/-- Witness for C4: `channels = 1`, `samples = 20` yields exactly
`8 + 8 + 16 + 8 = 40` bytes. -/
theorem C4_witness :
    ∃ bytes, qoa_encode (List.replicate 20 0) 1 44100 20 = some bytes ∧
      bytes.length = 40 := by
  obtain ⟨bs, hbs, hlen⟩ := C4_encode_length (List.replicate 20 0) 1 44100 20
    (by decide) (by decide) (by decide) (by decide) (by decide)
  exact ⟨bs, hbs, by rw [hlen]⟩

/- -------------------------------------------------------------------------
Byte-level round-trip lemmas -/

lemma qoa_read_write_u64 (v : Nat) (rest : List Nat) (hv : v < 2 ^ 64) :
    qoa_read_u64 (qoa_write_u64 v ++ rest) 0 = v := by
  simp only [qoa_read_u64, qoa_write_u64, List.cons_append, List.nil_append]
  norm_num [List.getD_cons_succ, List.getD_cons_zero]
  omega

lemma getD_append_right_add (l1 l2 : List Nat) (i : Nat) :
    (l1 ++ l2).getD (l1.length + i) 0 = l2.getD i 0 := by
  rw [List.getD_append_right _ _ _ _ (Nat.le_add_right _ _), Nat.add_sub_cancel_left]

lemma qoa_read_u64_after (pre l : List Nat) (k : Nat) :
    qoa_read_u64 (pre ++ l) (pre.length + k) = qoa_read_u64 l k := by
  simp only [qoa_read_u64, Nat.add_assoc, getD_append_right_add]

/-- The first 8 bytes of an encoded frame parse back to the frame-header
word packed from channels, samplerate, frame length and frame size. -/
lemma qoa_encode_frame_head (sd : List Int) (channels samplerate : Nat)
    (lms : List QoaLms) (frame_len : Nat) (rest : List Nat)
    (hc : channels ≤ 8) (hsr : samplerate ≤ 0xffffff) (hfl : frame_len ≤ 5120) :
    qoa_read_u64 ((qoa_encode_frame sd channels samplerate lms frame_len).2 ++ rest) 0 =
      channels * 2 ^ 56 + samplerate * 2 ^ 32 + frame_len * 2 ^ 16 +
        (8 + 16 * channels + 8 * ((frame_len + 19) / 20) * channels) := by
  simp only [qoa_encode_frame]
  rw [List.append_assoc, List.append_assoc]
  have hsl : 8 * ((frame_len + 19) / 20) * channels ≤ 2048 * 8 :=
    Nat.mul_le_mul (by omega) hc
  exact qoa_read_write_u64 _ _ (by omega)

/- -------------------------------------------------------------------------
Decoder buffer-length preservation -/

lemma qoa_decode_slice_buf_length (scalefactor channels : Nat) :
    ∀ (count slice : Nat) (lmsc : QoaLms) (buf : List Int) (si : Nat),
      (qoa_decode_slice scalefactor channels count slice lmsc buf si).2.length = buf.length
  | 0, _, _, _, _ => rfl
  | count + 1, slice, lmsc, buf, si => by
    rw [qoa_decode_slice, qoa_decode_slice_buf_length scalefactor channels count _ _ _ _]
    simp

lemma qoa_decode_fold_buf_length (bytes : List Nat) (channels samples sample_index base : Nat) :
    ∀ (l : List Nat) (st : Nat × List QoaLms × List Int),
      (l.foldl (qoa_decode_ch bytes channels samples sample_index base) st).2.2.length =
        st.2.2.length
  | [], _ => rfl
  | c :: cs, st => by
    rw [List.foldl_cons, qoa_decode_fold_buf_length bytes channels samples sample_index base cs _]
    simp [qoa_decode_ch, qoa_decode_slice_buf_length]

lemma qoa_decode_blocks_buf_length (bytes : List Nat) (channels samples base : Nat) :
    ∀ (blocks sample_index : Nat) (st : Nat × List QoaLms × List Int),
      (qoa_decode_blocks bytes channels samples base blocks sample_index st).2.2.length =
        st.2.2.length
  | 0, _, _ => rfl
  | b + 1, sample_index, st => by
    rw [qoa_decode_blocks, qoa_decode_blocks_buf_length bytes channels samples base b _ _]
    exact qoa_decode_fold_buf_length bytes channels samples sample_index base _ st

lemma qoa_decode_frame_buf_length (bytes : List Nat) (size channels samplerate : Nat)
    (lms : List QoaLms) (buf : List Int) (base : Nat) :
    (qoa_decode_frame bytes size channels samplerate lms buf base).buf.length = buf.length := by
  simp only [qoa_decode_frame]
  split_ifs
  · rfl
  · rfl
  · exact qoa_decode_blocks_buf_length _ _ _ _ _ _ _

/-- Decoding a frame produced by `qoa_encode_frame` (with matching
descriptor fields and enough remaining bytes) passes validation, consumes
exactly the frame's byte length, and reports the frame's sample count. -/
lemma qoa_decode_frame_of_encode (sd : List Int) (channels samplerate : Nat)
    (elms dlms : List QoaLms) (frame_len : Nat) (rest : List Nat)
    (size : Nat) (buf : List Int) (base : Nat)
    (hc1 : 1 ≤ channels) (hc2 : channels ≤ 8)
    (hsr2 : samplerate ≤ 0xffffff)
    (hfl1 : 1 ≤ frame_len) (hfl2 : frame_len ≤ 5120)
    (hsize : (qoa_encode_frame sd channels samplerate elms frame_len).2.length ≤ size) :
    (qoa_decode_frame ((qoa_encode_frame sd channels samplerate elms frame_len).2 ++ rest)
        size channels samplerate dlms buf base).consumed =
      (qoa_encode_frame sd channels samplerate elms frame_len).2.length ∧
    (qoa_decode_frame ((qoa_encode_frame sd channels samplerate elms frame_len).2 ++ rest)
        size channels samplerate dlms buf base).frame_len = frame_len := by
  have hlen := qoa_encode_frame_snd_length sd channels samplerate elms frame_len
  obtain ⟨P, hP⟩ : ∃ P, 8 * ((frame_len + 19) / 20) * channels = P := ⟨_, rfl⟩
  have hP8 : P = 8 * ((frame_len + 19) / 20 * channels) := by
    rw [← hP]
    ring
  have hPc : 8 * channels * ((frame_len + 19) / 20) = P := by
    rw [← hP]
    ring
  rw [hPc] at hlen
  have hhead := qoa_encode_frame_head sd channels samplerate elms frame_len rest hc2 hsr2 hfl2
  rw [hP] at hhead
  have hslb : (frame_len + 19) / 20 ≤ 256 := by omega
  have hprod : P ≤ 2048 * 8 := by
    rw [← hP]
    exact Nat.mul_le_mul (by omega) hc2
  set w := channels * 2 ^ 56 + samplerate * 2 ^ 32 + frame_len * 2 ^ 16 +
    (8 + 16 * channels + P) with hw
  have hsplit56 : w = 2 ^ 56 * channels +
      (samplerate * 2 ^ 32 + frame_len * 2 ^ 16 + (8 + 16 * channels + P)) := by
    rw [hw]
    ring
  have hsplit32 : w = 2 ^ 32 * (channels * 2 ^ 24 + samplerate) +
      (frame_len * 2 ^ 16 + (8 + 16 * channels + P)) := by
    rw [hw]
    ring
  have hsplit16 : w = 2 ^ 16 * (channels * 2 ^ 40 + samplerate * 2 ^ 16 + frame_len) +
      (8 + 16 * channels + P) := by
    rw [hw]
    ring
  have e1 : w / 2 ^ 56 % 2 ^ 8 = channels := by
    rw [hsplit56, Nat.mul_add_div (by norm_num), Nat.div_eq_of_lt (by omega), Nat.add_zero]
    omega
  have e2 : w / 2 ^ 32 % 2 ^ 24 = samplerate := by
    rw [hsplit32, Nat.mul_add_div (by norm_num), Nat.div_eq_of_lt (by omega), Nat.add_zero]
    omega
  have e3 : w / 2 ^ 16 % 2 ^ 16 = frame_len := by
    rw [hsplit16, Nat.mul_add_div (by norm_num), Nat.div_eq_of_lt (by omega), Nat.add_zero]
    omega
  have e4 : w % 2 ^ 16 = 8 + 16 * channels + P := by
    rw [hsplit16, Nat.mul_add_mod]
    omega
  have hds : ((8 + 16 * channels + P : Nat) : Int) - 8 - 16 * (channels : Int) =
      8 * (((frame_len + 19) / 20 * channels : Nat) : Int) := by
    rw [hP8]
    push_cast
    ring
  have hn : frame_len * channels ≤ (frame_len + 19) / 20 * channels * 20 := by
    have h1 : frame_len ≤ (frame_len + 19) / 20 * 20 := by omega
    calc frame_len * channels ≤ (frame_len + 19) / 20 * 20 * channels :=
          Nat.mul_le_mul_right _ h1
      _ = (frame_len + 19) / 20 * channels * 20 := by ring
  simp only [qoa_decode_frame, hhead, e1, e2, e3, e4]
  split_ifs with h1 h2
  · exact absurd h1 (by omega)
  · exfalso
    rcases h2 with h | h | h | h
    · exact h rfl
    · exact h rfl
    · omega
    · rw [hds, Int.mul_tdiv_cancel_left _ (by norm_num : (8 : Int) ≠ 0)] at h
      have hlt : (frame_len + 19) / 20 * channels * 20 < frame_len * channels := by
        exact_mod_cast h
      omega
  · refine ⟨?_, rfl⟩
    rw [qoa_decode_blocks_fst]
    dsimp only
    omega

/-- Running the decoder's frame loop over the frames emitted by
`qoa_encode_frames` decodes every frame: the final decoded sample count
is exactly `samples` and the sample buffer keeps its allocated length. -/
lemma qoa_decode_loop_of_encode (sd : List Int) (channels samplerate samples size : Nat)
    (hc1 : 1 ≤ channels) (hc2 : channels ≤ 8) (hsr2 : samplerate ≤ 0xffffff) :
    ∀ (fuel si p : Nat) (elms dlms : List QoaLms) (buf : List Int) (bytes : List Nat),
      si < samples →
      bytes.drop p = (qoa_encode_frames sd channels samplerate samples elms si).2 →
      size = p + (qoa_encode_frames sd channels samplerate samples elms si).2.length →
      (samples - si + 5119) / 5120 ≤ fuel →
      (qoa_decode_loop bytes size channels samplerate samples fuel p si dlms buf).1 =
          samples ∧
        (qoa_decode_loop bytes size channels samplerate samples fuel p si dlms
            buf).2.2.length = buf.length
  | 0, si, p, elms, dlms, buf, bytes, hsi, hdrop, hsize, hfuel => absurd hfuel (by omega)
  | fuel + 1, si, p, elms, dlms, buf, bytes, hsi, hdrop, hsize, hfuel => by
    set fl := min 5120 (samples - si) with hfldef
    have hfl1 : 1 ≤ fl := by omega
    have hfl2 : fl ≤ 5120 := by omega
    set F := qoa_encode_frame (sd.drop (si * channels)) channels samplerate elms fl with hF
    set rest2 := (qoa_encode_frames sd channels samplerate samples F.1 (si + fl)).2
      with hrest
    have hunfold : (qoa_encode_frames sd channels samplerate samples elms si).2 =
        F.2 ++ rest2 := by
      conv_lhs => rw [qoa_encode_frames]
      rw [dif_pos hsi]
    have hlenF := qoa_encode_frame_snd_length (sd.drop (si * channels)) channels
      samplerate elms fl
    have hsizele : F.2.length ≤ size - p := by
      rw [hsize, hunfold, List.length_append]
      omega
    obtain ⟨hcons, hflen⟩ := qoa_decode_frame_of_encode (sd.drop (si * channels)) channels
      samplerate elms dlms fl rest2 (size - p) buf (si * channels) hc1 hc2 hsr2 hfl1 hfl2
      hsizele
    have hbuf := qoa_decode_frame_buf_length (F.2 ++ rest2) (size - p) channels samplerate
      dlms buf (si * channels)
    simp only [qoa_decode_loop]
    rw [hdrop, hunfold, hcons, hflen]
    by_cases hlt : si + fl < samples
    · rw [if_pos ⟨by omega, hlt⟩]
      have h5120 : fl = 5120 := by omega
      have hdrop' : bytes.drop (p + F.2.length) = rest2 := by
        rw [← List.drop_drop, hdrop, hunfold, List.drop_left]
      have hsize' : size = p + F.2.length + rest2.length := by
        rw [hsize, hunfold, List.length_append]
        omega
      obtain ⟨ih1, ih2⟩ := qoa_decode_loop_of_encode sd channels samplerate samples size
        hc1 hc2 hsr2 fuel (si + fl) (p + F.2.length) F.1 _ _ bytes hlt hdrop' hsize'
        (by omega)
      exact ⟨ih1, by rw [ih2, hbuf]⟩
    · rw [if_neg (by tauto)]
      refine ⟨by dsimp only; omega, ?_⟩
      dsimp only
      exact hbuf

lemma qoa_frame_word_fields (channels samplerate frame_len P : Nat)
    (hc2 : channels ≤ 8) (hsr2 : samplerate ≤ 0xffffff) (hfl2 : frame_len ≤ 5120)
    (hP : P ≤ 2048 * 8) :
    (channels * 2 ^ 56 + samplerate * 2 ^ 32 + frame_len * 2 ^ 16 +
        (8 + 16 * channels + P)) / 2 ^ 56 % 2 ^ 8 = channels ∧
      (channels * 2 ^ 56 + samplerate * 2 ^ 32 + frame_len * 2 ^ 16 +
        (8 + 16 * channels + P)) / 2 ^ 32 % 2 ^ 24 = samplerate := by
  constructor
  · have hsplit : channels * 2 ^ 56 + samplerate * 2 ^ 32 + frame_len * 2 ^ 16 +
        (8 + 16 * channels + P) = 2 ^ 56 * channels +
          (samplerate * 2 ^ 32 + frame_len * 2 ^ 16 + (8 + 16 * channels + P)) := by
      ring
    rw [hsplit, Nat.mul_add_div (by norm_num), Nat.div_eq_of_lt (by omega), Nat.add_zero]
    omega
  · have hsplit : channels * 2 ^ 56 + samplerate * 2 ^ 32 + frame_len * 2 ^ 16 +
        (8 + 16 * channels + P) = 2 ^ 32 * (channels * 2 ^ 24 + samplerate) +
          (frame_len * 2 ^ 16 + (8 + 16 * channels + P)) := by
      ring
    rw [hsplit, Nat.mul_add_div (by norm_num), Nat.div_eq_of_lt (by omega), Nat.add_zero]
    omega

/-- C1: for every valid descriptor (`channels ∈ [1,8]`,
`samplerate ∈ [1, 16777215]`, `samples > 0` — and `samples < 2^32`, the
range of the C `unsigned int` field) and every interleaved sample buffer
of length `samples * channels`, decoding the bytes produced by
`qoa_encode` succeeds (non-null) and returns a sample buffer of length
`samples * channels` together with a descriptor whose channels,
samplerate and samples equal those passed to the encoder. -/
theorem C1_decode_encode_round_trip (sd : List Int) (channels samplerate samples : Nat)
    (hc1 : 1 ≤ channels) (hc2 : channels ≤ 8)
    (hsr1 : 1 ≤ samplerate) (hsr2 : samplerate ≤ 0xffffff)
    (hs1 : 1 ≤ samples) (hs2 : samples < 2 ^ 32)
    (_hsd : sd.length = samples * channels) :
    ∃ (bytes : List Nat) (r : QoaDecodeResult),
      qoa_encode sd channels samplerate samples = some bytes ∧
      qoa_decode bytes bytes.length = some r ∧
      r.buf.length = samples * channels ∧
      r.channels = channels ∧ r.samplerate = samplerate ∧ r.samples = samples := by
  have henc : qoa_encode sd channels samplerate samples =
      some (qoa_encode_header samples ++
        (qoa_encode_frames sd channels samplerate samples
          (List.replicate channels qoa_initial_lms) 0).2) := by
    unfold qoa_encode
    rw [if_neg (by omega)]
  set F := (qoa_encode_frames sd channels samplerate samples
    (List.replicate channels qoa_initial_lms) 0).2 with hFdef
  have hFlen : F.length = (samples - 0 + 5119) / 5120 * (8 + 16 * channels) +
      8 * channels * ((samples - 0 + 19) / 20) := by
    rw [hFdef, qoa_encode_frames_snd_length]
  set bytes := qoa_encode_header samples ++ F with hbytes
  have hblen : bytes.length = 8 + F.length := by
    rw [hbytes, List.length_append]
    rfl
  have hprod1 : (samples - 0 + 5119) / 5120 ≤
      (samples - 0 + 5119) / 5120 * (8 + 16 * channels) :=
    Nat.le_mul_of_pos_right _ (by omega)
  have hprod2 : 8 + 16 * channels ≤
      (samples - 0 + 5119) / 5120 * (8 + 16 * channels) :=
    Nat.le_mul_of_pos_left _ (by omega)
  have h16 : 16 ≤ bytes.length := by omega
  have hread0 : qoa_read_u64 bytes 0 = 0x716f6166 * 2 ^ 32 + samples := by
    rw [hbytes]
    exact qoa_read_write_u64 _ _ (by omega)
  have hmagic : qoa_read_u64 bytes 0 / 2 ^ 32 = 0x716f6166 := by
    rw [hread0]
    omega
  have hsamp : qoa_read_u64 bytes 0 % 2 ^ 32 = samples := by
    rw [hread0]
    omega
  have hdrop8 : bytes.drop 8 = F := by
    rw [hbytes, show (8 : Nat) = (qoa_encode_header samples).length from rfl]
    exact List.drop_left _ _
  have hFunfold : F = (qoa_encode_frame (sd.drop (0 * channels)) channels samplerate
      (List.replicate channels qoa_initial_lms) (min 5120 (samples - 0))).2 ++
      (qoa_encode_frames sd channels samplerate samples
        (qoa_encode_frame (sd.drop (0 * channels)) channels samplerate
          (List.replicate channels qoa_initial_lms) (min 5120 (samples - 0))).1
        (0 + min 5120 (samples - 0))).2 := by
    rw [hFdef]
    conv_lhs => rw [qoa_encode_frames]
    rw [dif_pos (by omega)]
  have hread8 : qoa_read_u64 bytes 8 =
      channels * 2 ^ 56 + samplerate * 2 ^ 32 + min 5120 (samples - 0) * 2 ^ 16 +
        (8 + 16 * channels +
          8 * ((min 5120 (samples - 0) + 19) / 20) * channels) := by
    have h8 := qoa_read_u64_after (qoa_encode_header samples) F 0
    rw [hbytes]
    have hpre : (qoa_encode_header samples).length + 0 = 8 := rfl
    rw [hpre] at h8
    rw [h8, hFunfold]
    exact qoa_encode_frame_head _ _ _ _ _ _ hc2 hsr2 (by omega)
  obtain ⟨hch8, hsr8⟩ := qoa_frame_word_fields channels samplerate (min 5120 (samples - 0))
    (8 * ((min 5120 (samples - 0) + 19) / 20) * channels) hc2 hsr2 (by omega)
    (Nat.mul_le_mul (by omega) hc2)
  have hheader : qoa_decode_header bytes bytes.length = some (channels, samplerate, samples) := by
    simp only [qoa_decode_header, hmagic, hsamp, hread8, hch8, hsr8]
    rw [if_neg (by omega), if_neg (by simp), if_neg (by omega), if_neg (by push_neg; omega)]
  have hloop := qoa_decode_loop_of_encode sd channels samplerate samples bytes.length
    hc1 hc2 hsr2 (bytes.length + 1) 0 8 (List.replicate channels qoa_initial_lms)
    (List.replicate channels qoaLmsZero) (List.replicate (samples * channels) 0) bytes
    (by omega) hdrop8 (by rw [hblen, ← hFdef]) (by omega)
  refine ⟨bytes,
    ⟨(qoa_decode_loop bytes bytes.length channels samplerate samples (bytes.length + 1)
        8 0 (List.replicate channels qoaLmsZero) (List.replicate (samples * channels) 0)).2.2,
      channels, samplerate,
      (qoa_decode_loop bytes bytes.length channels samplerate samples (bytes.length + 1)
        8 0 (List.replicate channels qoaLmsZero) (List.replicate (samples * channels) 0)).1,
      (qoa_decode_loop bytes bytes.length channels samplerate samples (bytes.length + 1)
        8 0 (List.replicate channels qoaLmsZero)
        (List.replicate (samples * channels) 0)).2.1⟩,
    henc, ?_, ?_, rfl, rfl, ?_⟩
  · simp only [qoa_decode, hheader]
  · rw [hloop.2, List.length_replicate]
  · exact hloop.1

/-- Witness for C1: one channel, 44100 Hz, 20 zero samples. -/
theorem C1_witness :
    ∃ (bytes : List Nat) (r : QoaDecodeResult),
      qoa_encode (List.replicate 20 0) 1 44100 20 = some bytes ∧
      qoa_decode bytes bytes.length = some r ∧
      r.buf.length = 20 * 1 ∧ r.channels = 1 ∧ r.samplerate = 44100 ∧ r.samples = 20 :=
  C1_decode_encode_round_trip (List.replicate 20 0) 1 44100 20 (by decide) (by decide)
    (by decide) (by decide) (by decide) (by decide) (by decide)

/- -------------------------------------------------------------------------
Decoder range invariants (C10) -/

/-- All four history entries of an LMS state lie in the 16-bit sample
range `[-32768, 32767]`. -/
def qoa_hist_in_i16 (l : QoaLms) : Prop :=
  ∀ x ∈ l.history, -32768 ≤ x ∧ x ≤ 32767

lemma qoa_clamp_i16_range (v : Int) :
    -32768 ≤ qoa_clamp v (-32768) 32767 ∧ qoa_clamp v (-32768) 32767 ≤ 32767 := by
  unfold qoa_clamp
  split_ifs <;> omega

lemma toInt16_range (n : Nat) : -32768 ≤ toInt16 n ∧ toInt16 n ≤ 32767 := by
  unfold toInt16
  split_ifs <;> omega

lemma unpack16x4_hist_in_i16 (hw ww : Nat) :
    qoa_hist_in_i16 ⟨unpack16x4 hw, unpack16x4 ww⟩ := by
  intro x hx
  simp only [unpack16x4, List.mem_cons, List.not_mem_nil, or_false] at hx
  rcases hx with h | h | h | h <;> rw [h] <;> exact toInt16_range _

lemma qoa_lms_update_hist (l : QoaLms) (sample residual : Int)
    (hl : qoa_hist_in_i16 l) (hs : -32768 ≤ sample ∧ sample ≤ 32767) :
    qoa_hist_in_i16 (qoa_lms_update l sample residual) := by
  intro x hx
  simp only [qoa_lms_update, List.mem_append, List.mem_singleton] at hx
  rcases hx with h | h
  · exact hl x (List.mem_of_mem_tail h)
  · rw [h]
    exact hs

lemma getD_hist_in_i16 (lms : List QoaLms) (c : Nat)
    (h : ∀ m ∈ lms, qoa_hist_in_i16 m) : qoa_hist_in_i16 (lms.getD c qoaLmsZero) := by
  by_cases hc : c < lms.length
  · rw [List.getD_eq_getElem lms qoaLmsZero hc]
    exact h _ (List.getElem_mem hc)
  · rw [List.getD_eq_default lms qoaLmsZero (by omega)]
    intro x hx
    simp only [qoaLmsZero, List.mem_cons, List.not_mem_nil, or_false] at hx
    rcases hx with h | h | h | h <;> rw [h] <;> omega

lemma qoa_decode_slice_inv (scalefactor channels : Nat) :
    ∀ (count slice : Nat) (lmsc : QoaLms) (buf : List Int) (si : Nat),
      qoa_hist_in_i16 lmsc →
      qoa_hist_in_i16 (qoa_decode_slice scalefactor channels count slice lmsc buf si).1 ∧
        ∀ v ∈ (qoa_decode_slice scalefactor channels count slice lmsc buf si).2,
          v ∈ buf ∨ (-32768 ≤ v ∧ v ≤ 32767)
  | 0, _, lmsc, buf, _, h => ⟨h, fun v hv => Or.inl hv⟩
  | count + 1, slice, lmsc, buf, si, h => by
    rw [qoa_decode_slice]
    have hrec := qoa_clamp_i16_range (qoa_lms_predict lmsc +
      (qoa_dequant_tab.getD scalefactor []).getD (slice / 2 ^ 57 % 8) 0)
    obtain ⟨ih1, ih2⟩ := qoa_decode_slice_inv scalefactor channels count
      (slice * 8 % 2 ^ 64) (qoa_lms_update lmsc _ _) (buf.set si _) (si + channels)
      (qoa_lms_update_hist lmsc _ _ h hrec)
    refine ⟨ih1, fun v hv => ?_⟩
    rcases ih2 v hv with h' | h'
    · rcases List.mem_or_eq_of_mem_set h' with h'' | h''
      · exact Or.inl h''
      · rw [h'']
        exact Or.inr hrec
    · exact Or.inr h'

lemma qoa_decode_fold_inv (bytes : List Nat) (channels samples sample_index base : Nat) :
    ∀ (l : List Nat) (st : Nat × List QoaLms × List Int),
      (∀ m ∈ st.2.1, qoa_hist_in_i16 m) →
      (∀ m ∈ (l.foldl (qoa_decode_ch bytes channels samples sample_index base) st).2.1,
          qoa_hist_in_i16 m) ∧
        ∀ v ∈ (l.foldl (qoa_decode_ch bytes channels samples sample_index base) st).2.2,
          v ∈ st.2.2 ∨ (-32768 ≤ v ∧ v ≤ 32767)
  | [], st, h => ⟨h, fun v hv => Or.inl hv⟩
  | c :: cs, st, h => by
    rw [List.foldl_cons]
    obtain ⟨hsl1, hsl2⟩ := qoa_decode_slice_inv (qoa_read_u64 bytes st.1 / 2 ^ 60 % 16)
      channels (min (sample_index + 20) samples - sample_index) (qoa_read_u64 bytes st.1)
      (st.2.1.getD c qoaLmsZero) st.2.2 (base + (sample_index * channels + c))
      (getD_hist_in_i16 st.2.1 c h)
    have hst : ∀ m ∈ (qoa_decode_ch bytes channels samples sample_index base st c).2.1,
        qoa_hist_in_i16 m := by
      intro m hm
      simp only [qoa_decode_ch] at hm
      rcases List.mem_or_eq_of_mem_set hm with h' | h'
      · exact h m h'
      · rw [h']
        exact hsl1
    obtain ⟨ih1, ih2⟩ := qoa_decode_fold_inv bytes channels samples sample_index base cs
      (qoa_decode_ch bytes channels samples sample_index base st c) hst
    refine ⟨ih1, fun v hv => ?_⟩
    rcases ih2 v hv with h' | h'
    · rcases hsl2 v h' with h'' | h''
      · exact Or.inl h''
      · exact Or.inr h''
    · exact Or.inr h'

lemma qoa_decode_blocks_inv (bytes : List Nat) (channels samples base : Nat) :
    ∀ (blocks sample_index : Nat) (st : Nat × List QoaLms × List Int),
      (∀ m ∈ st.2.1, qoa_hist_in_i16 m) →
      (∀ m ∈ (qoa_decode_blocks bytes channels samples base blocks sample_index st).2.1,
          qoa_hist_in_i16 m) ∧
        ∀ v ∈ (qoa_decode_blocks bytes channels samples base blocks sample_index st).2.2,
          v ∈ st.2.2 ∨ (-32768 ≤ v ∧ v ≤ 32767)
  | 0, _, st, h => ⟨h, fun v hv => Or.inl hv⟩
  | b + 1, sample_index, st, h => by
    rw [qoa_decode_blocks]
    obtain ⟨hb1, hb2⟩ := qoa_decode_fold_inv bytes channels samples sample_index base
      (List.range channels) st h
    obtain ⟨ih1, ih2⟩ := qoa_decode_blocks_inv bytes channels samples base b
      (sample_index + 20) (qoa_decode_block bytes channels samples sample_index base st) hb1
    refine ⟨ih1, fun v hv => ?_⟩
    rcases ih2 v hv with h' | h'
    · rcases hb2 v h' with h'' | h''
      · exact Or.inl h''
      · exact Or.inr h''
    · exact Or.inr h'

/-- C10: for arbitrary input bytes on which `qoa_decode_frame` passes
validation (nonzero consumed count), every sample value it writes into
the output buffer lies in `[-32768, 32767]` — each element of the
returned buffer is either an untouched element of the input buffer or a
clamped reconstructed sample in range — and every element of every
channel's LMS history remains in `[-32768, 32767]` after all the
`qoa_lms_update` calls performed during the frame. -/
theorem C10_decode_frame_sample_range (bytes : List Nat) (size channels samplerate : Nat)
    (lms : List QoaLms) (buf : List Int) (base : Nat)
    (h : (qoa_decode_frame bytes size channels samplerate lms buf base).consumed ≠ 0) :
    (∀ v ∈ (qoa_decode_frame bytes size channels samplerate lms buf base).buf,
        v ∈ buf ∨ (-32768 ≤ v ∧ v ≤ 32767)) ∧
      ∀ m ∈ (qoa_decode_frame bytes size channels samplerate lms buf base).lms,
        qoa_hist_in_i16 m := by
  simp only [qoa_decode_frame] at h ⊢
  split_ifs at h ⊢ with h1 h2
  · exact absurd rfl h
  · exact absurd rfl h
  · have hwire : ∀ m ∈ (List.range (qoa_read_u64 bytes 0 / 2 ^ 56 % 2 ^ 8)).map (fun c =>
        ({ history := unpack16x4 (qoa_read_u64 bytes (8 + 16 * c)),
           weights := unpack16x4 (qoa_read_u64 bytes (8 + 16 * c + 8)) } : QoaLms)),
        qoa_hist_in_i16 m := by
      intro m hm
      obtain ⟨c, _, hc⟩ := List.mem_map.mp hm
      rw [← hc]
      exact unpack16x4_hist_in_i16 _ _
    obtain ⟨hb1, hb2⟩ := qoa_decode_blocks_inv bytes
      (qoa_read_u64 bytes 0 / 2 ^ 56 % 2 ^ 8) (qoa_read_u64 bytes 0 / 2 ^ 16 % 2 ^ 16)
      base ((qoa_read_u64 bytes 0 / 2 ^ 16 % 2 ^ 16 + 19) / 20) 0
      (8 + 16 * (qoa_read_u64 bytes 0 / 2 ^ 56 % 2 ^ 8),
        (List.range (qoa_read_u64 bytes 0 / 2 ^ 56 % 2 ^ 8)).map (fun c =>
          ({ history := unpack16x4 (qoa_read_u64 bytes (8 + 16 * c)),
             weights := unpack16x4 (qoa_read_u64 bytes (8 + 16 * c + 8)) } : QoaLms)),
        buf)
      hwire
    exact ⟨hb2, hb1⟩

/-- Witness for C10 on the concrete frame `c9_frame`. -/
theorem C10_witness :
    (∀ v ∈ (qoa_decode_frame c9_frame 40 1 1 [qoaLmsZero] (List.replicate 1 0) 0).buf,
        v ∈ List.replicate 1 0 ∨ (-32768 ≤ v ∧ v ≤ 32767)) ∧
      ∀ m ∈ (qoa_decode_frame c9_frame 40 1 1 [qoaLmsZero] (List.replicate 1 0) 0).lms,
        qoa_hist_in_i16 m :=
  C10_decode_frame_sample_range c9_frame 40 1 1 [qoaLmsZero] (List.replicate 1 0) 0
    (by decide)

/- -------------------------------------------------------------------------
The scalefactor search (C6) -/

/-- A scalefactor's full candidate for one slice: the trial run with the
break threshold at its initial `u64` maximum, which never fires since the
`% 2 ^ 64` accumulator cannot exceed `2 ^ 64 - 1`.  Components:
`.1` the LMS state after the slice, `.2.1` the candidate slice word,
`.2.2` the candidate's total squared error. -/
def qoa_candidate (sd : List Int) (channels scalefactor slice_start slice_len : Nat)
    (lms0 : QoaLms) : QoaLms × Nat × Nat :=
  qoa_encode_slice_try sd channels scalefactor (2 ^ 64 - 1) slice_len slice_start
    lms0 scalefactor 0

lemma sq_toNat_le (a b : Int) (ha : -32768 ≤ a ∧ a ≤ 32767)
    (hb : -32768 ≤ b ∧ b ≤ 32767) : ((a - b) * (a - b)).toNat ≤ 4294836225 := by
  have h1 : -65535 ≤ a - b := by omega
  have h2 : a - b ≤ 65535 := by omega
  have h3 : (a - b) * (a - b) ≤ 65535 * 65535 := by nlinarith
  have h0 : 0 ≤ (a - b) * (a - b) := mul_self_nonneg _
  omega

lemma getD_sample_range (sd : List Int) (hsd : ∀ x ∈ sd, -32768 ≤ x ∧ x ≤ 32767)
    (si : Nat) : -32768 ≤ sd.getD si 0 ∧ sd.getD si 0 ≤ 32767 := by
  by_cases h : si < sd.length
  · rw [List.getD_eq_getElem sd 0 h]
    exact hsd _ (List.getElem_mem h)
  · rw [List.getD_eq_default sd 0 (by omega)]
    omega

lemma qoa_enc_err2_le (sd : List Int) (hsd : ∀ x ∈ sd, -32768 ≤ x ∧ x ≤ 32767)
    (scalefactor si : Nat) (lmsc : QoaLms) :
    qoa_enc_err2 sd scalefactor si lmsc ≤ 4294836225 := by
  have hr : -32768 ≤ qoa_enc_reconstructed sd scalefactor si lmsc ∧
      qoa_enc_reconstructed sd scalefactor si lmsc ≤ 32767 := by
    unfold qoa_enc_reconstructed
    exact qoa_clamp_i16_range _
  exact sq_toNat_le _ _ (getD_sample_range sd hsd si) hr

lemma qoa_slice_try_max_bounds (sd : List Int) (channels scalefactor : Nat)
    (hsd : ∀ x ∈ sd, -32768 ≤ x ∧ x ≤ 32767) :
    ∀ (count si : Nat) (lmsc : QoaLms) (slice cur : Nat),
      cur + count * 4294836225 < 2 ^ 64 →
      cur ≤ (qoa_encode_slice_try sd channels scalefactor (2 ^ 64 - 1) count si lmsc
          slice cur).2.2 ∧
        (qoa_encode_slice_try sd channels scalefactor (2 ^ 64 - 1) count si lmsc
          slice cur).2.2 ≤ cur + count * 4294836225
  | 0, _, _, _, cur, _ => by
    simp only [qoa_encode_slice_try]
    omega
  | count + 1, si, lmsc, slice, cur, hb => by
    have he := qoa_enc_err2_le sd hsd scalefactor si lmsc
    simp only [qoa_encode_slice_try]
    rw [Nat.mod_eq_of_lt (by omega), if_neg (by omega)]
    obtain ⟨ih1, ih2⟩ := qoa_slice_try_max_bounds sd channels scalefactor hsd count
      (si + channels)
      (qoa_lms_update lmsc (qoa_enc_reconstructed sd scalefactor si lmsc)
        (qoa_enc_dequantized sd scalefactor si lmsc))
      ((slice * 8 + qoa_enc_quantized sd scalefactor si lmsc) % 2 ^ 64)
      (cur + qoa_enc_err2 sd scalefactor si lmsc) (by omega)
    exact ⟨by omega, by omega⟩

lemma qoa_slice_try_below (sd : List Int) (channels scalefactor : Nat)
    (hsd : ∀ x ∈ sd, -32768 ≤ x ∧ x ≤ 32767) :
    ∀ (count si : Nat) (lmsc : QoaLms) (slice cur θ : Nat),
      cur + count * 4294836225 < 2 ^ 64 →
      (qoa_encode_slice_try sd channels scalefactor (2 ^ 64 - 1) count si lmsc
          slice cur).2.2 < θ →
      qoa_encode_slice_try sd channels scalefactor θ count si lmsc slice cur =
        qoa_encode_slice_try sd channels scalefactor (2 ^ 64 - 1) count si lmsc slice cur
  | 0, _, _, _, _, _, _, _ => rfl
  | count + 1, si, lmsc, slice, cur, θ, hb, hlt => by
    have he := qoa_enc_err2_le sd hsd scalefactor si lmsc
    simp only [qoa_encode_slice_try] at hlt ⊢
    rw [Nat.mod_eq_of_lt (by omega)] at hlt ⊢
    rw [if_neg (show ¬ cur + qoa_enc_err2 sd scalefactor si lmsc > 2 ^ 64 - 1 by
      omega)] at hlt
    have hmono := (qoa_slice_try_max_bounds sd channels scalefactor hsd count
      (si + channels)
      (qoa_lms_update lmsc (qoa_enc_reconstructed sd scalefactor si lmsc)
        (qoa_enc_dequantized sd scalefactor si lmsc))
      ((slice * 8 + qoa_enc_quantized sd scalefactor si lmsc) % 2 ^ 64)
      (cur + qoa_enc_err2 sd scalefactor si lmsc) (by omega)).1
    rw [if_neg (show ¬ cur + qoa_enc_err2 sd scalefactor si lmsc > 2 ^ 64 - 1 by omega),
      if_neg (show ¬ cur + qoa_enc_err2 sd scalefactor si lmsc > θ by omega)]
    exact qoa_slice_try_below sd channels scalefactor hsd count (si + channels) _ _ _ θ
      (by omega) hlt

lemma qoa_slice_try_ge (sd : List Int) (channels scalefactor : Nat)
    (hsd : ∀ x ∈ sd, -32768 ≤ x ∧ x ≤ 32767) :
    ∀ (count si : Nat) (lmsc : QoaLms) (slice cur θ : Nat),
      cur + count * 4294836225 < 2 ^ 64 →
      θ ≤ (qoa_encode_slice_try sd channels scalefactor (2 ^ 64 - 1) count si lmsc
          slice cur).2.2 →
      θ ≤ (qoa_encode_slice_try sd channels scalefactor θ count si lmsc slice cur).2.2
  | 0, _, _, _, _, _, _, hge => hge
  | count + 1, si, lmsc, slice, cur, θ, hb, hge => by
    have he := qoa_enc_err2_le sd hsd scalefactor si lmsc
    simp only [qoa_encode_slice_try] at hge ⊢
    rw [Nat.mod_eq_of_lt (by omega)] at hge ⊢
    rw [if_neg (show ¬ cur + qoa_enc_err2 sd scalefactor si lmsc > 2 ^ 64 - 1 by
      omega)] at hge
    by_cases hbr : cur + qoa_enc_err2 sd scalefactor si lmsc > θ
    · rw [if_pos hbr]
      dsimp only
      omega
    · rw [if_neg hbr]
      exact qoa_slice_try_ge sd channels scalefactor hsd count (si + channels) _ _ _ θ
        (by omega) hge

lemma qoa_search_fold_argmin (sd : List Int) (channels slice_start slice_len : Nat)
    (lms0 : QoaLms) (hsd : ∀ x ∈ sd, -32768 ≤ x ∧ x ≤ 32767) (hsl : slice_len ≤ 20) :
    ∀ k : Nat, 1 ≤ k → k ≤ 16 →
      ∃ s0, s0 < k ∧
        (List.range k).foldl (qoa_encode_sf sd channels slice_start slice_len lms0)
            (2 ^ 64 - 1, 0, lms0) =
          ((qoa_candidate sd channels s0 slice_start slice_len lms0).2.2,
            (qoa_candidate sd channels s0 slice_start slice_len lms0).2.1,
            (qoa_candidate sd channels s0 slice_start slice_len lms0).1) ∧
        (∀ t < s0, (qoa_candidate sd channels s0 slice_start slice_len lms0).2.2 <
          (qoa_candidate sd channels t slice_start slice_len lms0).2.2) ∧
        (∀ t < k, (qoa_candidate sd channels s0 slice_start slice_len lms0).2.2 ≤
          (qoa_candidate sd channels t slice_start slice_len lms0).2.2) := by
  have hbound : (0 : Nat) + slice_len * 4294836225 < 2 ^ 64 := by
    have : slice_len * 4294836225 ≤ 20 * 4294836225 := Nat.mul_le_mul_right _ hsl
    omega
  intro k
  induction k with
  | zero => exact fun h _ => absurd h (by omega)
  | succ k ih =>
    intro _ hk16
    by_cases hk0 : k = 0
    · subst hk0
      refine ⟨0, by omega, ?_, by omega, ?_⟩
      · rw [show List.range 1 = [0] from rfl, List.foldl_cons, List.foldl_nil]
        simp only [qoa_encode_sf]
        have hE0 := (qoa_slice_try_max_bounds sd channels 0 hsd slice_len slice_start
          lms0 0 0 hbound).2
        rw [if_pos (show (qoa_encode_slice_try sd channels 0 (2 ^ 64 - 1) slice_len
          slice_start lms0 0 0).2.2 < 2 ^ 64 - 1 by omega)]
        rfl
      · intro t ht
        have : t = 0 := by omega
        rw [this]
    · obtain ⟨s0, hs0k, heq, hstrict, hle⟩ := ih (by omega) (by omega)
      rw [List.range_succ, List.foldl_append, heq, List.foldl_cons, List.foldl_nil]
      simp only [qoa_encode_sf]
      have hck : qoa_encode_slice_try sd channels k (2 ^ 64 - 1) slice_len slice_start
          lms0 k 0 = qoa_candidate sd channels k slice_start slice_len lms0 := rfl
      by_cases hEk : (qoa_candidate sd channels k slice_start slice_len lms0).2.2 <
          (qoa_candidate sd channels s0 slice_start slice_len lms0).2.2
      · have hB := qoa_slice_try_below sd channels k hsd slice_len slice_start lms0 k 0
          ((qoa_candidate sd channels s0 slice_start slice_len lms0).2.2) hbound
          (by rw [hck]; exact hEk)
        rw [hB, hck, if_pos hEk]
        refine ⟨k, by omega, rfl, ?_, ?_⟩
        · intro t ht
          exact lt_of_lt_of_le hEk (hle t ht)
        · intro t ht
          rcases (show t < k ∨ t = k by omega) with h | h
          · exact le_of_lt (lt_of_lt_of_le hEk (hle t h))
          · rw [h]
      · have hC := qoa_slice_try_ge sd channels k hsd slice_len slice_start lms0 k 0
          ((qoa_candidate sd channels s0 slice_start slice_len lms0).2.2) hbound
          (by rw [hck]; exact not_lt.mp hEk)
        rw [if_neg (not_lt.mpr hC)]
        refine ⟨s0, by omega, rfl, hstrict, ?_⟩
        intro t ht
        rcases (show t < k ∨ t = k by omega) with h | h
        · exact hle t h
        · rw [h]
          exact not_lt.mp hEk

/-- C6: the brute-force scalefactor search uses strict less-than
comparisons, so the recorded `(best_error, best_slice, best_lms)` triple
is the candidate of the LOWEST scalefactor among those of minimal total
squared error (every strictly smaller index has strictly larger error,
every index has error at least the winner's); and since `best_error`
starts at the maximum `u64` value `2 ^ 64 - 1` while scalefactor 0's
candidate error stays strictly below it (samples are 16-bit), the first
scalefactor's candidate is accepted at least once. -/
theorem C6_search_strict_tiebreak (sd : List Int) (channels slice_start slice_len : Nat)
    (lms0 : QoaLms) (hsd : ∀ x ∈ sd, -32768 ≤ x ∧ x ≤ 32767) (hsl : slice_len ≤ 20) :
    ∃ s0, s0 < 16 ∧
      qoa_encode_search sd channels slice_start slice_len lms0 =
        ((qoa_candidate sd channels s0 slice_start slice_len lms0).2.2,
          (qoa_candidate sd channels s0 slice_start slice_len lms0).2.1,
          (qoa_candidate sd channels s0 slice_start slice_len lms0).1) ∧
      (∀ t < s0, (qoa_candidate sd channels s0 slice_start slice_len lms0).2.2 <
        (qoa_candidate sd channels t slice_start slice_len lms0).2.2) ∧
      (∀ t < 16, (qoa_candidate sd channels s0 slice_start slice_len lms0).2.2 ≤
        (qoa_candidate sd channels t slice_start slice_len lms0).2.2) ∧
      (qoa_candidate sd channels 0 slice_start slice_len lms0).2.2 < 2 ^ 64 - 1 := by
  obtain ⟨s0, h1, h2, h3, h4⟩ := qoa_search_fold_argmin sd channels slice_start slice_len
    lms0 hsd hsl 16 (by omega) (by omega)
  have hb : (0 : Nat) + slice_len * 4294836225 < 2 ^ 64 := by
    have : slice_len * 4294836225 ≤ 20 * 4294836225 := Nat.mul_le_mul_right _ hsl
    omega
  have hE0 := (qoa_slice_try_max_bounds sd channels 0 hsd slice_len slice_start
    lms0 0 0 hb).2
  exact ⟨s0, h1, h2, h3, h4, by
    show (qoa_encode_slice_try sd channels 0 (2 ^ 64 - 1) slice_len slice_start
      lms0 0 0).2.2 < 2 ^ 64 - 1
    omega⟩

/-- Witness for C6: a 20-sample zero slice, one channel, from the
encoder's initial LMS state. -/
theorem C6_witness :
    ∃ s0, s0 < 16 ∧
      qoa_encode_search (List.replicate 20 0) 1 0 20 qoa_initial_lms =
        ((qoa_candidate (List.replicate 20 0) 1 s0 0 20 qoa_initial_lms).2.2,
          (qoa_candidate (List.replicate 20 0) 1 s0 0 20 qoa_initial_lms).2.1,
          (qoa_candidate (List.replicate 20 0) 1 s0 0 20 qoa_initial_lms).1) ∧
      (∀ t < s0, (qoa_candidate (List.replicate 20 0) 1 s0 0 20 qoa_initial_lms).2.2 <
        (qoa_candidate (List.replicate 20 0) 1 t 0 20 qoa_initial_lms).2.2) ∧
      (∀ t < 16, (qoa_candidate (List.replicate 20 0) 1 s0 0 20 qoa_initial_lms).2.2 ≤
        (qoa_candidate (List.replicate 20 0) 1 t 0 20 qoa_initial_lms).2.2) ∧
      (qoa_candidate (List.replicate 20 0) 1 0 0 20 qoa_initial_lms).2.2 < 2 ^ 64 - 1 :=
  C6_search_strict_tiebreak (List.replicate 20 0) 1 0 20 qoa_initial_lms (by decide)
    (by decide)
